import Mathlib

/-!
Verification development for the `app-tree` directory analyzer.

The program recursively walks a directory tree, renders a textual report
(one block per directory header and one block per file, with text-file
content HTML-escaped line by line), and either writes the report to a
fixed-name file, wraps it in a static HTML page, or serves it once over a
throwaway local HTTP server.

Modelling conventions:
* Go byte strings are modelled as `List Char`, one `Char` per byte
  (all bytes relevant to the claims are ASCII, where Go's byte-wise and
  rune-wise processing coincide).
* The filesystem is modelled as a tree (`FSTree` / `FSForest`) whose
  directory nodes carry a `readable` flag (an unreadable directory is one
  whose `os.ReadDir` fails) and whose file nodes carry a `readable` flag
  (an unreadable file is one whose `ioutil.ReadFile` fails).  Children
  are stored in listing order (`os.ReadDir` returns a sorted, per-run
  deterministic order).
* The MIME classifier (`github.com/h2non/filetype`) is an external
  collaborator; it is a parameter `classify : List Char → String × Bool`
  returning the label and whether a known type matched
  (`kind != filetype.Unknown`).
-/

/-- One character of Go's `template.HTMLEscapeString`: `"` ↦ `&#34;`,
`'` ↦ `&#39;`, `&` ↦ `&amp;`, `<` ↦ `&lt;`, `>` ↦ `&gt;`, NUL ↦ U+FFFD,
anything else unchanged. -/
def escChar (c : Char) : List Char :=
  if c = '"' then "&#34;".data
  else if c = '\'' then "&#39;".data
  else if c = '&' then "&amp;".data
  else if c = '<' then "&lt;".data
  else if c = '>' then "&gt;".data
  else if c = Char.ofNat 0 then [Char.ofNat 0xFFFD]
  else [c]

/-- `template.HTMLEscapeString` over a whole byte string. -/
def escapeChars : List Char → List Char
  | [] => []
  | c :: rest => escChar c ++ escapeChars rest

/-- Go's `strings.Split(s, "\n")`: the list of lines, where a trailing
newline yields a final empty line and the empty string yields one empty
line. -/
def splitLines : List Char → List (List Char)
  | [] => [[]]
  | c :: rest =>
    if c = '\n' then [] :: splitLines rest
    else
      match splitLines rest with
      | [] => [[c]]
      | l :: ls => (c :: l) :: ls

/-- A character that cannot influence markup structure: not one of
`< >, ", ', &`. -/
def harmlessChar (c : Char) : Bool :=
  !(c = '<' || c = '>' || c = '"' || c = '\'' || c = '&')

/-- Scanner for "no unescaped markup-significant character": a raw
`<`, `>`, `"` or `'` is forbidden, and `&` is allowed only as the start
of one of the five escape entities produced by `escChar`
(`&#34; &#39; &amp; &lt; &gt;`), scanning resuming after the entity. -/
def noUnescapedMarkup : List Char → Bool
  | [] => true
  | c :: rest =>
    if c = '<' || c = '>' || c = '"' || c = '\'' then false
    else if c = '&' then
      match rest with
      | '#' :: '3' :: '4' :: ';' :: rest2 => noUnescapedMarkup rest2
      | '#' :: '3' :: '9' :: ';' :: rest2 => noUnescapedMarkup rest2
      | 'a' :: 'm' :: 'p' :: ';' :: rest2 => noUnescapedMarkup rest2
      | 'l' :: 't' :: ';' :: rest2 => noUnescapedMarkup rest2
      | 'g' :: 't' :: ';' :: rest2 => noUnescapedMarkup rest2
      | _ => false
    else noUnescapedMarkup rest

mutual
/-- A filesystem node: a file (raw byte content, readable unless its
`ReadFile` fails) or a directory (children in listing order, readable
unless its `ReadDir` fails). -/
inductive FSTree where
  | file (name : String) (content : List Char) (readable : Bool)
  | dir (name : String) (readable : Bool) (children : FSForest)

/-- The children of a directory, in the order `os.ReadDir` lists them. -/
inductive FSForest where
  | nil
  | cons (head : FSTree) (tail : FSForest)
end

/-- The base name of a node, as reported by `entry.Name()`. -/
def FSTree.name : FSTree → String
  | .file n _ _ => n
  | .dir n _ _ => n

/-- Concatenation of two child listings. -/
def FSForest.append : FSForest → FSForest → FSForest
  | .nil, g => g
  | .cons c rest, g => .cons c (rest.append g)

/-- `filepath.Join(dir, name)` for a clean directory path and a plain
entry name. -/
def joinPath (dir name : String) : String := dir ++ "/" ++ name

/-- The 26-character separator line used by every block. -/
def sepLine : List Char := "==========================".data

/-- The directory block written by `traverseDirectory`:
`fmt.Sprintf("\nDIRECTORY: %s\n%s==========================\n", dir, indent)`. -/
def dirBlock (dir indent : String) : List Char :=
  "\nDIRECTORY: ".data ++ dir.data ++ "\n".data
    ++ indent.data ++ sepLine ++ "\n".data

/-- Go's `strings.HasPrefix(s, pre)` on byte strings. -/
def strStartsWith (s pre : String) : Bool := pre.data.isPrefixOf s.data

/-- The type label `processFile` derives from the classifier:
the matched MIME value, or the literal `"unknown"` when
`kind == filetype.Unknown`. -/
def fileTypeLabel (classify : List Char → String × Bool) (content : List Char) : String :=
  if (classify content).2 then (classify content).1 else "unknown"

/-- The content region `processFile` emits for a text-classified file:
each line of the content, indented and HTML-escaped, each followed by a
newline. -/
def textBody (indent : String) (content : List Char) : List Char :=
  ((splitLines content).map (fun line => indent.data ++ escapeChars line ++ "\n".data)).flatten

/-- The full block `processFile` appends for one readable file:
header (`FILE`/`TYPE`/`SIZE`/`CONTENT` lines and an indented separator),
then the escaped text lines or the binary placeholder, then a closing
indented separator. -/
def processFileBlock (classify : List Char → String × Bool)
    (file indent : String) (content : List Char) : List Char :=
  let fileTypeStr := fileTypeLabel classify content
  "\nFILE: ".data ++ file.data ++ "\nTYPE: ".data ++ fileTypeStr.data
    ++ "\nSIZE: ".data ++ (Nat.repr content.length).data ++ " bytes\nCONTENT:\n".data
    ++ indent.data ++ sepLine ++ "\n".data
    ++ (if strStartsWith fileTypeStr "text" then textBody indent content
        else indent.data ++ "[Binary file content not displayed]\n".data)
    ++ indent.data ++ sepLine ++ "\n".data

mutual
/-- The report text appended by `traverseDirectory(path, indent, bar)`
when the node is a directory (nothing when its `ReadDir` fails), and by
`processFile(path, indent)` when it is a file (nothing when its
`ReadFile` fails). -/
def traverseReport (classify : List Char → String × Bool) :
    FSTree → String → String → List Char
  | .file _ content r, path, indent =>
    if r then processFileBlock classify path indent content else []
  | .dir _ r cs, path, indent =>
    if r then dirBlock path indent ++ reportChildren classify cs path indent else []

/-- The loop body of `traverseDirectory`: each entry is handled at
`filepath.Join(dir, entry.Name())` with indentation `indent ++ "  "`. -/
def reportChildren (classify : List Char → String × Bool) :
    FSForest → String → String → List Char
  | .nil, _, _ => []
  | .cons c rest, path, indent =>
    traverseReport classify c (joinPath path c.name) (indent ++ "  ")
      ++ reportChildren classify rest path indent
end

mutual
/-- The number of `bar.Add(1)` calls performed while traversing a node:
`traverseDirectory` adds one unit per listed entry; `processFile` never
touches the bar; an unreadable directory contributes nothing. -/
def traverseAdds : FSTree → Nat
  | .file _ _ _ => 0
  | .dir _ r cs => if r then addsChildren cs else 0

/-- Progress units contributed by a child listing: one per entry plus
the units of its subtree. -/
def addsChildren : FSForest → Nat
  | .nil => 0
  | .cons c rest => 1 + traverseAdds c + addsChildren rest
end

mutual
/-- `countItems` via `filepath.Walk` (Go 1.16+, as required by the
program's use of `os.ReadDir`): the walk function runs once per node —
for a directory it receives the `readDirNames` error of that directory —
and the callback increments the count only when the error is nil.  So a
file or readable directory is counted once, while an unreadable
directory is visited with a non-nil error, is not counted, and its
children are never reached. -/
def countItems : FSTree → Nat
  | .file _ _ _ => 1
  | .dir _ r cs => if r then 1 + countChildren cs else 0

/-- Walk count of a child listing. -/
def countChildren : FSForest → Nat
  | .nil => 0
  | .cons c rest => countItems c + countChildren rest
end

mutual
/-- The number of unreadable directories encountered while traversing a
node: directories whose listing fails, reached as the root or as a
listed entry under readable ancestors (children of an unreadable
directory are reached by neither the walk nor the traversal). -/
def unreadableDirs : FSTree → Nat
  | .file _ _ _ => 0
  | .dir _ r cs => if r then unreadableChildren cs else 1

/-- Unreadable directories encountered in a child listing. -/
def unreadableChildren : FSForest → Nat
  | .nil => 0
  | .cons c rest => unreadableDirs c + unreadableChildren rest
end

mutual
/-- The diagnostics printed while traversing a node: `traverseDirectory`
reports a directory whose listing fails, `processFile` a file whose read
fails (the OS error text is elided). -/
def traverseErrs : FSTree → String → List String
  | .file _ _ r, path => if r then [] else ["Error reading file " ++ path]
  | .dir _ r cs, path =>
    if r then errsChildren cs path else ["Error reading directory " ++ path]

/-- Diagnostics of a child listing. -/
def errsChildren : FSForest → String → List String
  | .nil, _ => []
  | .cons c rest, path =>
    traverseErrs c (joinPath path c.name) ++ errsChildren rest path
end

mutual
/-- The sequence of blocks handed to `writeOutput`, in traversal order:
one directory block per readable directory before its children, one file
block per readable file. -/
def traverseBlocks (classify : List Char → String × Bool) :
    FSTree → String → String → List (List Char)
  | .file _ content r, path, indent =>
    if r then [processFileBlock classify path indent content] else []
  | .dir _ r cs, path, indent =>
    if r then dirBlock path indent :: blocksChildren classify cs path indent else []

/-- Blocks appended while looping over a child listing. -/
def blocksChildren (classify : List Char → String × Bool) :
    FSForest → String → String → List (List Char)
  | .nil, _, _ => []
  | .cons c rest, path, indent =>
    traverseBlocks classify c (joinPath path c.name) (indent ++ "  ")
      ++ blocksChildren classify rest path indent
end

/-- `writeOutput`: append one rendered block to the shared
`strings.Builder` (the mutex only serializes callers; the sequential
effect is concatenation). -/
def writeOutput (buf content : List Char) : List Char := buf ++ content

/-- The record of one `ioutil.WriteFile(dest, bytes, 0644)` call made by
the static text exporter: the bytes written are exactly the aggregated
report. -/
structure WrittenFile where
  path : String
  bytes : List Char
  perm : Nat

/-- Static text export: `ioutil.WriteFile(dest, []byte(output.String()), 0644)`. -/
def exportText (report : List Char) (dest : String) : WrittenFile :=
  ⟨dest, report, 0o644⟩

mutual
theorem countItems_eq_adds (t : FSTree) :
    countItems t + unreadableDirs t = traverseAdds t + 1 := by
  cases t with
  | file n c r => simp [countItems, traverseAdds, unreadableDirs]
  | dir n r cs =>
    cases r with
    | false => simp [countItems, traverseAdds, unreadableDirs]
    | true =>
      have h := countChildren_eq_adds cs
      simp [countItems, traverseAdds, unreadableDirs]
      omega

theorem countChildren_eq_adds (f : FSForest) :
    countChildren f + unreadableChildren f = addsChildren f := by
  cases f with
  | nil => simp [countChildren, addsChildren, unreadableChildren]
  | cons c rest =>
    have h1 := countItems_eq_adds c
    have h2 := countChildren_eq_adds rest
    simp [countChildren, addsChildren, unreadableChildren]
    omega
end

/-- C1: the claim as stated is false on both counts.  For the one-node
tree consisting of a readable empty root directory, the pre-traversal
count (`countItems`) is 1 (the root's own node) while the traversal
reports 0 progress units (`bar.Add` runs once per listed entry, and the
root is not an entry).  And for a readable root with one
unreadable-but-listed subdirectory, the pre-count is 1 — the walk
function is invoked for the unreadable directory with a non-nil error,
so it is not pre-counted, contradicting the claim's parenthetical —
while that entry still receives one progress unit. -/
theorem c1_total_count_counterexample :
    (countItems (FSTree.dir "root" true FSForest.nil) ≠
      traverseAdds (FSTree.dir "root" true FSForest.nil)) ∧
    countItems
        (FSTree.dir "root" true
          (FSForest.cons (FSTree.dir "sub" false FSForest.nil) FSForest.nil)) = 1 ∧
    traverseAdds
        (FSTree.dir "root" true
          (FSForest.cons (FSTree.dir "sub" false FSForest.nil) FSForest.nil)) = 1 := by
  decide

/-- C1 (amended): for every directory tree, the pre-traversal count
computed by `countItems` equals the number of progress units reported
during the real traversal, plus one for the root's own node (counted by
`filepath.Walk` but never a listed entry of any visited directory),
minus one for each unreadable directory encountered (never counted by
the walk, whose callback requires a nil error, yet still receiving one
progress unit as a listed entry):
`countItems + unreadableDirs = traverseAdds + 1`. -/
theorem c1_total_count_off_by_one (t : FSTree) :
    countItems t + unreadableDirs t = traverseAdds t + 1 :=
  countItems_eq_adds t

theorem splitLines_ne_nil (l : List Char) : splitLines l ≠ [] := by
  cases l with
  | nil => simp [splitLines]
  | cons c rest =>
    simp only [splitLines]
    split
    · simp
    · split <;> simp

theorem splitLines_cons_nl (l : List Char) :
    splitLines ('\n' :: l) = [] :: splitLines l := by
  simp [splitLines]

theorem splitLines_append (a b : List Char) (h : ∀ c ∈ a, c ≠ '\n') :
    splitLines (a ++ b) = (splitLines b).modifyHead (a ++ ·) := by
  induction a with
  | nil =>
    cases hb : splitLines b with
    | nil => exact absurd hb (splitLines_ne_nil b)
    | cons l ls => simp [List.modifyHead, hb]
  | cons c a ih =>
    have hc : c ≠ '\n' := h c (by simp)
    have ha : ∀ x ∈ a, x ≠ '\n' := fun x hx => h x (by simp [hx])
    cases hb : splitLines b with
    | nil => exact absurd hb (splitLines_ne_nil b)
    | cons l ls =>
      simp only [List.cons_append, splitLines, if_neg hc, List.append_eq, ih ha, hb,
        List.modifyHead]

theorem dirBlock_shape (dir indent : String) :
    dirBlock dir indent =
      '\n' :: ("DIRECTORY: ".data ++ (dir.data ++
        ('\n' :: (indent.data ++ (sepLine ++ ['\n']))))) := by
  have h1 : "\nDIRECTORY: ".data = '\n' :: "DIRECTORY: ".data := by decide
  have h2 : "\n".data = ['\n'] := by decide
  simp [dirBlock, h1, h2, List.append_assoc]

/-- C4: counterexample to the claim as stated: the directory block for
path "/r" rendered with indentation "  " has the header line
"DIRECTORY: /r", which does not carry the two-space indentation prefix;
only the separator line does. -/
theorem c4_directory_block_counterexample :
    splitLines (dirBlock "/r" "  ") =
      [[], "DIRECTORY: /r".data, "  ==========================".data, []] ∧
    List.take 2 "DIRECTORY: /r".data ≠ "  ".data := by decide

/-- C4 (amended): for every successfully visited directory, the rendered
block is a leading blank line, then a header line containing the
directory's absolute path but carrying no indentation, then the
fixed-width separator line prefixed by the current indentation. -/
theorem c4_directory_block_lines (dir indent : String)
    (hd : ∀ c ∈ dir.data, c ≠ '\n') (hi : ∀ c ∈ indent.data, c ≠ '\n') :
    splitLines (dirBlock dir indent) =
      [[], "DIRECTORY: ".data ++ dir.data, indent.data ++ sepLine, []] := by
  have hlit : ∀ c ∈ "DIRECTORY: ".data, c ≠ '\n' := by decide
  have hsep : ∀ c ∈ sepLine, c ≠ '\n' := by decide
  rw [dirBlock_shape, splitLines_cons_nl, splitLines_append _ _ hlit,
    splitLines_append _ _ hd, splitLines_cons_nl, splitLines_append _ _ hi,
    splitLines_append _ _ hsep,
    show splitLines ['\n'] = [[], []] from by decide]
  simp [List.modifyHead, List.append_assoc]

/-- C4 witness: the amended statement instantiated at the directory "/r"
with indentation "  ". -/
theorem c4_directory_block_lines_witness :
    (∀ c ∈ "/r".data, c ≠ '\n') ∧ (∀ c ∈ "  ".data, c ≠ '\n') ∧
    splitLines (dirBlock "/r" "  ") =
      [[], "DIRECTORY: ".data ++ "/r".data, "  ".data ++ sepLine, []] :=
  ⟨by decide, by decide, c4_directory_block_lines "/r" "  " (by decide) (by decide)⟩

theorem noUnescapedMarkup_cons_harmless (c : Char) (l : List Char)
    (h : harmlessChar c = true) :
    noUnescapedMarkup (c :: l) = noUnescapedMarkup l := by
  have h1 : c ≠ '<' := by intro e; subst e; simp [harmlessChar] at h
  have h2 : c ≠ '>' := by intro e; subst e; simp [harmlessChar] at h
  have h3 : c ≠ '"' := by intro e; subst e; simp [harmlessChar] at h
  have h4 : c ≠ '\'' := by intro e; subst e; simp [harmlessChar] at h
  have h5 : c ≠ '&' := by intro e; subst e; simp [harmlessChar] at h
  rw [noUnescapedMarkup.eq_def]
  simp [h1, h2, h3, h4, h5]

theorem noUnescapedMarkup_escChar (c : Char) (l : List Char) :
    noUnescapedMarkup (escChar c ++ l) = noUnescapedMarkup l := by
  by_cases h1 : c = '"'
  · subst h1
    simp [escChar, show "&#34;".data = ['&', '#', '3', '4', ';'] from by decide,
      noUnescapedMarkup]
  by_cases h2 : c = '\''
  · subst h2
    simp [escChar, h1, show "&#39;".data = ['&', '#', '3', '9', ';'] from by decide,
      noUnescapedMarkup]
  by_cases h3 : c = '&'
  · subst h3
    simp [escChar, h1, h2, show "&amp;".data = ['&', 'a', 'm', 'p', ';'] from by decide,
      noUnescapedMarkup]
  by_cases h4 : c = '<'
  · subst h4
    simp [escChar, h1, h2, h3, show "&lt;".data = ['&', 'l', 't', ';'] from by decide,
      noUnescapedMarkup]
  by_cases h5 : c = '>'
  · subst h5
    simp [escChar, h1, h2, h3, h4, show "&gt;".data = ['&', 'g', 't', ';'] from by decide,
      noUnescapedMarkup]
  by_cases h6 : c = Char.ofNat 0
  · subst h6
    have hesc : escChar (Char.ofNat 0) = [Char.ofNat 0xFFFD] := by
      simp [escChar, h1, h2, h3, h4, h5]
    rw [hesc, List.singleton_append, noUnescapedMarkup_cons_harmless _ _ (by decide)]
  · have hesc : escChar c = [c] := by simp [escChar, h1, h2, h3, h4, h5, h6]
    rw [hesc, List.singleton_append]
    exact noUnescapedMarkup_cons_harmless c l
      (by simp [harmlessChar, h1, h2, h3, h4, h5])

theorem noUnescapedMarkup_escape_append (l m : List Char) :
    noUnescapedMarkup (escapeChars l ++ m) = noUnescapedMarkup m := by
  induction l with
  | nil => simp [escapeChars]
  | cons c l ih => simp [escapeChars, List.append_assoc, noUnescapedMarkup_escChar, ih]

theorem noUnescapedMarkup_harmless_append (a b : List Char)
    (h : ∀ c ∈ a, harmlessChar c = true) :
    noUnescapedMarkup (a ++ b) = noUnescapedMarkup b := by
  induction a with
  | nil => simp
  | cons c a ih =>
    rw [List.cons_append, noUnescapedMarkup_cons_harmless c _ (h c (by simp))]
    exact ih (fun x hx => h x (by simp [hx]))

theorem noUnescapedMarkup_textBody (indent : String) (content : List Char)
    (h : ∀ c ∈ indent.data, c = ' ') :
    noUnescapedMarkup (textBody indent content) = true := by
  have hind : ∀ c ∈ indent.data, harmlessChar c = true := fun c hc => by
    rw [h c hc]; decide
  suffices H : ∀ lines : List (List Char),
      noUnescapedMarkup
        ((lines.map (fun line => indent.data ++ escapeChars line ++ "\n".data)).flatten)
        = true from H (splitLines content)
  intro lines
  induction lines with
  | nil => simp [noUnescapedMarkup]
  | cons line rest ih =>
    simp only [List.map_cons, List.flatten_cons, List.append_assoc]
    rw [noUnescapedMarkup_harmless_append _ _ hind, noUnescapedMarkup_escape_append,
      List.singleton_append, noUnescapedMarkup_cons_harmless '\n' _ (by decide)]
    simpa [List.append_assoc] using ih

/-- C2: for every file whose classifier label begins with "text", the
block appended by `processFile` renders the content region as the
per-line HTML-escaped `textBody`, and that content region contains no
unescaped markup-significant character: no raw `<`, `>`, `"`, `'`, and
every `&` only as the head of an escape entity (the indentation is the
all-space prefix built by the traversal). -/
theorem c2_text_content_escaped (classify : List Char → String × Bool)
    (file indent : String) (content : List Char)
    (htext : strStartsWith (fileTypeLabel classify content) "text" = true)
    (hind : ∀ c ∈ indent.data, c = ' ') :
    processFileBlock classify file indent content =
      "\nFILE: ".data ++ file.data ++ "\nTYPE: ".data
        ++ (fileTypeLabel classify content).data
        ++ "\nSIZE: ".data ++ (Nat.repr content.length).data ++ " bytes\nCONTENT:\n".data
        ++ indent.data ++ sepLine ++ "\n".data
        ++ textBody indent content
        ++ indent.data ++ sepLine ++ "\n".data ∧
    noUnescapedMarkup (textBody indent content) = true := by
  refine ⟨?_, noUnescapedMarkup_textBody indent content hind⟩
  simp [processFileBlock, htext]

/-- C2 witness: a concrete text-classified file whose content holds the
markup-significant characters. -/
theorem c2_text_content_escaped_witness :
    strStartsWith
      (fileTypeLabel (fun _ => ("text/plain", true)) "a<b>&c\"d".data) "text" = true ∧
    (∀ c ∈ "  ".data, c = ' ') ∧
    noUnescapedMarkup (textBody "  " "a<b>&c\"d".data) = true :=
  ⟨by decide, by decide,
    (c2_text_content_escaped (fun _ => ("text/plain", true)) "/root/a.txt" "  "
      "a<b>&c\"d".data (by decide) (by decide)).2⟩

/-- C6: for every file not classified as text, the appended block holds
the fixed binary placeholder line in place of the raw bytes — the block
depends on the content only through its classifier label and its length
— and the SIZE line still reports the true byte count of the content. -/
theorem c6_binary_placeholder (classify : List Char → String × Bool)
    (file indent : String) (content : List Char)
    (hbin : strStartsWith (fileTypeLabel classify content) "text" = false) :
    processFileBlock classify file indent content =
      "\nFILE: ".data ++ file.data ++ "\nTYPE: ".data
        ++ (fileTypeLabel classify content).data
        ++ "\nSIZE: ".data ++ (Nat.repr content.length).data ++ " bytes\nCONTENT:\n".data
        ++ indent.data ++ sepLine ++ "\n".data
        ++ indent.data ++ "[Binary file content not displayed]\n".data
        ++ indent.data ++ sepLine ++ "\n".data := by
  simp [processFileBlock, hbin]

/-- C6 witness: a three-byte unmatched (hence "unknown") file. -/
theorem c6_binary_placeholder_witness :
    strStartsWith
      (fileTypeLabel (fun _ => ("", false)) [Char.ofNat 1, Char.ofNat 2, Char.ofNat 3])
      "text" = false ∧
    processFileBlock (fun _ => ("", false)) "/root/sub/b.bin" "    "
        [Char.ofNat 1, Char.ofNat 2, Char.ofNat 3] =
      "\nFILE: ".data ++ "/root/sub/b.bin".data ++ "\nTYPE: ".data
        ++ (fileTypeLabel (fun _ => ("", false)) [Char.ofNat 1, Char.ofNat 2, Char.ofNat 3]).data
        ++ "\nSIZE: ".data
        ++ (Nat.repr (List.length [Char.ofNat 1, Char.ofNat 2, Char.ofNat 3])).data
        ++ " bytes\nCONTENT:\n".data
        ++ "    ".data ++ sepLine ++ "\n".data
        ++ "    ".data ++ "[Binary file content not displayed]\n".data
        ++ "    ".data ++ sepLine ++ "\n".data :=
  ⟨by decide,
    c6_binary_placeholder (fun _ => ("", false)) "/root/sub/b.bin" "    "
      [Char.ofNat 1, Char.ofNat 2, Char.ofNat 3] (by decide)⟩

theorem reportChildren_append (classify : List Char → String × Bool) :
    ∀ (f g : FSForest) (path indent : String),
      reportChildren classify (f.append g) path indent =
        reportChildren classify f path indent ++ reportChildren classify g path indent
  | .nil, g, path, indent => by simp [FSForest.append, reportChildren]
  | .cons c rest, g, path, indent => by
    simp [FSForest.append, reportChildren,
      reportChildren_append classify rest g path indent, List.append_assoc]

theorem errsChildren_append :
    ∀ (f g : FSForest) (path : String),
      errsChildren (f.append g) path = errsChildren f path ++ errsChildren g path
  | .nil, g, path => by simp [FSForest.append, errsChildren]
  | .cons c rest, g, path => by
    simp [FSForest.append, errsChildren, errsChildren_append rest g path,
      List.append_assoc]

/-- C5: a directory whose listing fails contributes nothing to the
Report — removing the unreadable subtree from the listing leaves the
rendered output unchanged, so every sibling entry before and after it
still produces exactly its own blocks and traversal continues — and the
error for the unreadable directory's path is reported.  (The model is a
total function, so the run never aborts.) -/
theorem c5_unreadable_subtree_skipped (classify : List Char → String × Bool)
    (n u : String) (ucs pre post : FSForest) (path indent : String) :
    traverseReport classify
        (.dir n true (pre.append (.cons (.dir u false ucs) post))) path indent =
      traverseReport classify (.dir n true (pre.append post)) path indent ∧
    ("Error reading directory " ++ joinPath path u) ∈
      traverseErrs (.dir n true (pre.append (.cons (.dir u false ucs) post))) path := by
  constructor
  · simp [traverseReport, reportChildren_append, reportChildren]
  · simp [traverseErrs, errsChildren_append, errsChildren, FSTree.name]

theorem foldl_writeOutput : ∀ (bs : List (List Char)) (init : List Char),
    bs.foldl writeOutput init = init ++ bs.flatten
  | [], init => by simp [writeOutput]
  | b :: bs, init => by
    simp [List.foldl_cons, writeOutput, foldl_writeOutput bs (init ++ b),
      List.append_assoc]

mutual
theorem traverseBlocks_flatten (classify : List Char → String × Bool) :
    ∀ (t : FSTree) (path indent : String),
      (traverseBlocks classify t path indent).flatten =
        traverseReport classify t path indent
  | .file n content r, path, indent => by
    cases r <;> simp [traverseBlocks, traverseReport]
  | .dir n r cs, path, indent => by
    cases r <;>
      simp [traverseBlocks, traverseReport,
        blocksChildren_flatten classify cs path indent]

theorem blocksChildren_flatten (classify : List Char → String × Bool) :
    ∀ (f : FSForest) (path indent : String),
      (blocksChildren classify f path indent).flatten =
        reportChildren classify f path indent
  | .nil, path, indent => by simp [blocksChildren, reportChildren]
  | .cons c rest, path, indent => by
    simp [blocksChildren, reportChildren, List.flatten_append,
      traverseBlocks_flatten classify c (joinPath path c.name) (indent ++ "  "),
      blocksChildren_flatten classify rest path indent]
end

/-- C8: the Report buffer is append-only — each `writeOutput` call
leaves the previously accumulated content as an unchanged prefix of the
new content — and folding `writeOutput` over the blocks emitted in
traversal order, starting from the empty buffer, yields exactly the full
traversal report: the concatenation of the per-entry blocks with none
dropped, truncated or reordered. -/
theorem c8_report_append_only :
    (∀ buf content : List Char, buf <+: writeOutput buf content) ∧
    (∀ (classify : List Char → String × Bool) (t : FSTree) (path indent : String),
      (traverseBlocks classify t path indent).foldl writeOutput [] =
        traverseReport classify t path indent) := by
  constructor
  · exact fun buf content => ⟨content, rfl⟩
  · intro classify t path indent
    rw [foldl_writeOutput]
    simpa using traverseBlocks_flatten classify t path indent

/-- C9: exporting the same report twice in static text mode to two
distinct destination paths writes byte-identical files, and the bytes
written are exactly the report string, independent of the destination. -/
theorem c9_text_export_destination_independent (report : List Char)
    (d1 d2 : String) (_hne : d1 ≠ d2) :
    (exportText report d1).bytes = (exportText report d2).bytes ∧
    (exportText report d1).bytes = report :=
  ⟨rfl, rfl⟩

/-- C9 witness: two concrete distinct destinations. -/
theorem c9_text_export_destination_independent_witness :
    "/tmp/a/app_tree_prompt.txt" ≠ "/tmp/b/app_tree_prompt.txt" ∧
    (exportText "report".data "/tmp/a/app_tree_prompt.txt").bytes =
      (exportText "report".data "/tmp/b/app_tree_prompt.txt").bytes ∧
    (exportText "report".data "/tmp/a/app_tree_prompt.txt").bytes = "report".data :=
  ⟨by decide,
    c9_text_export_destination_independent "report".data
      "/tmp/a/app_tree_prompt.txt" "/tmp/b/app_tree_prompt.txt" (by decide)⟩

/-- The scenario tree of the spec: `root/{a.txt="hi\n", sub/b.bin=<3
non-text bytes>}`, children in the sorted order `os.ReadDir` lists
them. -/
def demoTree : FSTree :=
  .dir "root" true
    (.cons (.file "a.txt" "hi\n".data true)
      (.cons (.dir "sub" true
        (.cons (.file "b.bin" [Char.ofNat 1, Char.ofNat 2, Char.ofNat 3] true)
          .nil))
        .nil))

set_option maxRecDepth 4096 in
/-- C3: for the scenario tree, any classifier that labels the content of
a.txt as "text/plain" and leaves the three binary bytes unmatched makes
a static text-mode run produce, in order: the directory block for /root,
the file block for a.txt whose content region is the escaped line "hi"
(plus the empty final line from the trailing newline), the directory
block for sub, and the file block for b.bin with the binary placeholder
line and SIZE 3 bytes. -/
theorem c3_static_text_scenario (classify : List Char → String × Bool)
    (ha : classify "hi\n".data = ("text/plain", true))
    (hb : (classify [Char.ofNat 1, Char.ofNat 2, Char.ofNat 3]).2 = false) :
    traverseReport classify demoTree "/root" "" =
      ("\nDIRECTORY: /root\n==========================\n"
        ++ "\nFILE: /root/a.txt\nTYPE: text/plain\nSIZE: 3 bytes\nCONTENT:\n"
        ++ "  ==========================\n  hi\n  \n  ==========================\n"
        ++ "\nDIRECTORY: /root/sub\n  ==========================\n"
        ++ "\nFILE: /root/sub/b.bin\nTYPE: unknown\nSIZE: 3 bytes\nCONTENT:\n"
        ++ "    ==========================\n    [Binary file content not displayed]\n"
        ++ "    ==========================\n").data := by
  simp only [demoTree, traverseReport, reportChildren, processFileBlock, fileTypeLabel,
    ha, hb, dirBlock, joinPath, sepLine, textBody, splitLines, escapeChars, escChar,
    FSTree.name, strStartsWith]
  simp only [Bool.false_eq_true, if_false]
  decide

/-- A concrete classifier realizing the scenario: text for the content
"hi\n", unmatched for everything else. -/
def demoClassify (b : List Char) : String × Bool :=
  if b = "hi\n".data then ("text/plain", true) else ("", false)

/-- C3 witness: the scenario run with the concrete classifier. -/
theorem c3_static_text_scenario_witness :
    demoClassify "hi\n".data = ("text/plain", true) ∧
    (demoClassify [Char.ofNat 1, Char.ofNat 2, Char.ofNat 3]).2 = false ∧
    traverseReport demoClassify demoTree "/root" "" =
      ("\nDIRECTORY: /root\n==========================\n"
        ++ "\nFILE: /root/a.txt\nTYPE: text/plain\nSIZE: 3 bytes\nCONTENT:\n"
        ++ "  ==========================\n  hi\n  \n  ==========================\n"
        ++ "\nDIRECTORY: /root/sub\n  ==========================\n"
        ++ "\nFILE: /root/sub/b.bin\nTYPE: unknown\nSIZE: 3 bytes\nCONTENT:\n"
        ++ "    ==========================\n    [Binary file content not displayed]\n"
        ++ "    ==========================\n").data :=
  ⟨by decide, by decide, c3_static_text_scenario demoClassify (by decide) (by decide)⟩

/-- The HTML boilerplate of `generateHTMLContent` up to and including
the opening `<pre>` tag (braces written as escapes). -/
def htmlHeader : String :=
  "\n<!DOCTYPE html>\n<html lang=\"en\">\n<head>\n    <meta charset=\"UTF-8\">\n    <meta name=\"viewport\" content=\"width=device-width, initial-scale=1.0\">\n    <title>App Tree Analysis</title>\n    <style>\n        body \x7b font-family: Arial, sans-serif; line-height: 1.6; padding: 20px; \x7d\n        h1 \x7b color: #333; \x7d\n        h2 \x7b color: #0066cc; \x7d\n        h3 \x7b color: #009900; \x7d\n        pre \x7b background-color: #f4f4f4; padding: 10px; border-radius: 5px; overflow-x: auto; \x7d\n    </style>\n</head>\n<body>\n    <h1>App Tree Analysis</h1>\n    <pre>"

/-- The HTML boilerplate after the report, closing the document. -/
def htmlFooter : String := "</pre>\n</body>\n</html>\n"

/-- `generateHTMLContent`: the fixed HTML page with
`template.HTMLEscapeString(content)` substituted inside the `<pre>`
container. -/
def generateHTMLContent (content : List Char) : List Char :=
  htmlHeader.data ++ escapeChars content ++ htmlFooter.data

theorem escapeChars_append (a b : List Char) :
    escapeChars (a ++ b) = escapeChars a ++ escapeChars b := by
  induction a with
  | nil => simp [escapeChars]
  | cons c a ih => simp [escapeChars, ih, List.append_assoc]

theorem isInfix_append_left {α : Type} {l y : List α} (x : List α)
    (h : l <:+: y) : l <:+: x ++ y := by
  obtain ⟨s, t, rfl⟩ := h
  exact ⟨x ++ s, t, by simp [List.append_assoc]⟩

theorem isInfix_append_right {α : Type} {l x : List α} (y : List α)
    (h : l <:+: x) : l <:+: x ++ y := by
  obtain ⟨s, t, rfl⟩ := h
  exact ⟨s, t ++ y, by simp [List.append_assoc]⟩

theorem escChar_isInfix_escapeChars {c : Char} :
    ∀ {l : List Char}, c ∈ l → escChar c <:+: escapeChars l
  | x :: rest, h => by
    rcases List.mem_cons.mp h with rfl | h2
    · exact ⟨[], escapeChars rest, by simp [escapeChars]⟩
    · exact isInfix_append_left (escChar x)
        (by simpa [escapeChars] using escChar_isInfix_escapeChars h2)

theorem escapeChars_isInfix_of_isInfix {p r : List Char} (h : p <:+: r) :
    escapeChars p <:+: escapeChars r := by
  obtain ⟨s, t, rfl⟩ := h
  exact ⟨escapeChars s, escapeChars t, by simp [escapeChars_append]⟩

theorem exists_line_of_mem {c : Char} (hne : c ≠ '\n') :
    ∀ {l : List Char}, c ∈ l → ∃ line ∈ splitLines l, c ∈ line
  | x :: rest, h => by
    by_cases hx : x = '\n'
    · subst hx
      have h2 : c ∈ rest := by
        rcases List.mem_cons.mp h with rfl | h2
        · exact absurd rfl hne
        · exact h2
      obtain ⟨line, hl, hc⟩ := exists_line_of_mem hne h2
      exact ⟨line, by simp [splitLines, hl], hc⟩
    · cases hr : splitLines rest with
      | nil => exact absurd hr (splitLines_ne_nil rest)
      | cons l0 ls =>
        rcases List.mem_cons.mp h with rfl | h2
        · exact ⟨c :: l0, by simp [splitLines, hx, hr], by simp⟩
        · obtain ⟨line, hl, hc⟩ := exists_line_of_mem hne h2
          rw [hr] at hl
          rcases List.mem_cons.mp hl with rfl | h3
          · exact ⟨x :: line, by simp [splitLines, hx, hr], by simp [hc]⟩
          · exact ⟨line, by simp [splitLines, hx, hr, h3], hc⟩

theorem isInfix_flatten_of_mem {x : List Char} :
    ∀ {xs : List (List Char)}, x ∈ xs → x <:+: xs.flatten
  | y :: ys, h => by
    rcases List.mem_cons.mp h with rfl | h2
    · exact isInfix_append_right ys.flatten (List.infix_refl x)
    · exact isInfix_append_left y (isInfix_flatten_of_mem h2)

/-- Naive substring check: does `pat` occur contiguously in the list? -/
def containsSub (pat : List Char) : List Char → Bool
  | [] => pat.isEmpty
  | x :: rest => pat.isPrefixOf (x :: rest) || containsSub pat rest

theorem containsSub_iff (pat : List Char) :
    ∀ l, containsSub pat l = true ↔ pat <:+: l
  | [] => by simp [containsSub, List.infix_nil]
  | x :: rest => by
    simp [containsSub, List.infix_cons_iff, List.isPrefixOf_iff_prefix,
      containsSub_iff pat rest]

set_option maxRecDepth 8192 in
/-- C10: in HTML export mode the content of text-classified files is
escaped twice — once per line by `processFile` and once more when
`generateHTMLContent` escapes the whole report — so whenever such a file
contains the markup-significant character `<`, the HTML artifact
contains the double-escaped form `&amp;lt;`; and for the concrete
one-character text file `<`, the singly-escaped form `&lt;` does not
occur anywhere in the artifact. -/
theorem c10_html_double_escape :
    (∀ (classify : List Char → String × Bool) (file indent : String) (content : List Char),
      strStartsWith (fileTypeLabel classify content) "text" = true →
      '<' ∈ content →
      "&amp;lt;".data <:+:
        generateHTMLContent (processFileBlock classify file indent content)) ∧
    ¬ ("&lt;".data <:+:
        generateHTMLContent
          (processFileBlock (fun _ => ("text/plain", true)) "/root/a.txt" "  " ['<'])) := by
  constructor
  · intro classify file indent content htext hmem
    obtain ⟨line, hline, hcl⟩ := exists_line_of_mem (by decide) hmem
    have h1 : "&lt;".data <:+: escapeChars line := by
      have h := escChar_isInfix_escapeChars hcl
      simpa [escChar] using h
    have h2 : escapeChars line <:+: indent.data ++ escapeChars line ++ "\n".data :=
      ⟨indent.data, "\n".data, by simp⟩
    have h3 : (indent.data ++ escapeChars line ++ "\n".data) <:+:
        textBody indent content :=
      isInfix_flatten_of_mem (List.mem_map_of_mem _ hline)
    have h4 : "&lt;".data <:+: textBody indent content := (h1.trans h2).trans h3
    have hblock : processFileBlock classify file indent content =
        ("\nFILE: ".data ++ file.data ++ "\nTYPE: ".data
          ++ (fileTypeLabel classify content).data
          ++ "\nSIZE: ".data ++ (Nat.repr content.length).data ++ " bytes\nCONTENT:\n".data
          ++ indent.data ++ sepLine ++ "\n".data)
          ++ (textBody indent content
          ++ (indent.data ++ sepLine ++ "\n".data)) := by
      simp [processFileBlock, htext, List.append_assoc]
    have h5 : "&lt;".data <:+: processFileBlock classify file indent content := by
      rw [hblock]
      exact isInfix_append_left _ (isInfix_append_right _ h4)
    have h6 : "&amp;lt;".data <:+:
        escapeChars (processFileBlock classify file indent content) := by
      have h := escapeChars_isInfix_of_isInfix h5
      rwa [show escapeChars "&lt;".data = "&amp;lt;".data from by decide] at h
    simpa [generateHTMLContent] using
      isInfix_append_left htmlHeader.data (isInfix_append_right htmlFooter.data h6)
  · have hfalse : containsSub "&lt;".data
        (generateHTMLContent
          (processFileBlock (fun _ => ("text/plain", true)) "/root/a.txt" "  " ['<']))
        = false := by decide
    intro hinf
    rw [← containsSub_iff] at hinf
    simp [hfalse] at hinf

/-- C10 witness: the general double-escape conclusion instantiated at a
one-character text file containing `<`. -/
theorem c10_html_double_escape_witness :
    strStartsWith (fileTypeLabel (fun _ => ("text/plain", true)) ['<']) "text" = true ∧
    '<' ∈ ['<'] ∧
    "&amp;lt;".data <:+:
      generateHTMLContent
        (processFileBlock (fun _ => ("text/plain", true)) "/root/a.txt" "  " ['<']) :=
  ⟨by decide, by decide,
    c10_html_double_escape.1 (fun _ => ("text/plain", true)) "/root/a.txt" "  " ['<']
      (by decide) (by decide)⟩
